import Mathlib

/-!
Verification of the stablewatch frame-analysis pipeline
(`src/horse_barn_monitor.py`, `src/barn_monitor_realtime.py`).

Python strings are embedded as `List Char`; Python floats that only ever
carry exact decimal values (intervals, latencies, confidence scores) are
embedded as `ℚ` (no claim here depends on IEEE rounding); dicts are
association lists with unique keys.  Fallible Python code is embedded with
`Option`/`Except`, where `none`/`.error` marks a raised exception.
-/

namespace Stablewatch

set_option maxRecDepth 100000

/-- Python strings, embedded as lists of characters. -/
abbrev Str := List Char

/-- Coerce a Lean string literal to the `List Char` embedding. -/
def s2l (s : String) : Str := s.data

/-- Python `\s` / `str.strip` whitespace (ASCII range; exotic Unicode
whitespace is not modelled, no claim depends on it). -/
def pyWs (c : Char) : Bool :=
  c == ' ' || c == '\t' || c == '\n' || c == '\r' || c == '\x0b' || c == '\x0c'

/-- Right strip: drop trailing whitespace, via reversal. -/
def rstripWs (s : Str) : Str := (s.reverse.dropWhile pyWs).reverse

/-- Python `str.strip()`: drop leading and trailing whitespace. -/
def pyStrip (s : Str) : Str := rstripWs (s.dropWhile pyWs)

/-- Python `str.startswith(p)` / the anchored part of a literal regex match. -/
def startsWith (p s : Str) : Bool := p.isPrefixOf s

/-- Python `s.split("\n")` on the character-list embedding. -/
def splitNl : Str → List Str
  | [] => [[]]
  | c :: r =>
    if c = '\n' then [] :: splitNl r
    else
      match splitNl r with
      | l :: ls => (c :: l) :: ls
      | [] => [[c]]

/-- Python `"\n".join(lines)` on the character-list embedding. -/
def joinNl : List Str → Str
  | [] => []
  | [l] => l
  | l :: l' :: ls => l ++ '\n' :: joinNl (l' :: ls)

/-! ### ResponseParser stage 1: code-fence stripping
Source: `horse_barn_monitor.py` lines 237-246.  The regex
`(three backticks)(?:json)?\s*\n?(.*?)\n?(three backticks)` with `re.DOTALL`
is embedded as an explicit matcher.  Backtracking preferences are resolved
once and for all: the optional `json` literal and the greedy `\s*` never
need to backtrack, because the characters they consume (letters of `json`,
whitespace) can never begin the closing backtick run, so consuming them
maximally neither creates nor destroys a match. -/

/-- The lazy `(.*?)\n?(three backticks)` tail of the fence regex: the group
is the shortest prefix whose remainder is the closing delimiter, with an
immediately preceding newline absorbed by `\n?` rather than the group. -/
def fenceGroup : Str → Option Str
  | [] => none
  | c :: r =>
    if startsWith (s2l "```") (c :: r) then some []
    else if c == '\n' && startsWith (s2l "```") r then some []
    else (fenceGroup r).map (fun g => c :: g)

/-- The skipped `(?:json)?\s*\n?` part after the opening delimiter (the
`\n?` is subsumed: `\s*` is greedy and newline is whitespace). -/
def afterOpen (s : Str) : Str :=
  (if startsWith (s2l "json") s then s.drop 4 else s).dropWhile pyWs

/-- Python `re.search` of the fence pattern: try each start position left to
right; at an opening delimiter, match the rest or move one position on. -/
def fenceSearch : Str → Option Str
  | [] => none
  | c :: r =>
    if startsWith (s2l "```") (c :: r) then
      match fenceGroup (afterOpen (r.drop 2)) with
      | some g => some g
      | none => fenceSearch r
    else fenceSearch r

/-- Stage 1 of response parsing (`horse_barn_monitor.py` lines 240-246):
take the fenced block's inner content if the fence regex matches; otherwise,
if the text starts with three backticks, drop every line whose stripped form
starts with three backticks and rejoin the rest. -/
def fenceStage (clean : Str) : Str :=
  match fenceSearch clean with
  | some g => pyStrip g
  | none =>
    if startsWith (s2l "```") clean then
      joinNl ((splitNl clean).filter
        (fun l => !(startsWith (s2l "```") (pyStrip l))))
    else clean

/-- The backtick character, written via its code point. -/
def bt : Char := Char.ofNat 96

/-! ### ResponseParser stage 2: strict JSON parse
Model of Python `json.loads` as used at `horse_barn_monitor.py` line 249.
JSON numbers are embedded as exact rationals (the pipeline only ever
compares and stores them; no claim depends on IEEE float rounding).
Not modelled, as no claim touches them: the non-standard `NaN`/`Infinity`
literals Python accepts, lone-surrogate `\u` escapes, and non-ASCII digits. -/

/-- JSON whitespace (exactly the four characters Python's decoder skips). -/
def jsonWs (c : Char) : Bool := c == ' ' || c == '\t' || c == '\n' || c == '\r'

/-- Skip JSON whitespace. -/
def skipJsonWs (s : Str) : Str := s.dropWhile jsonWs

/-- A parsed JSON value (Python object from `json.loads`). -/
inductive Json where
  | null
  | bool (b : Bool)
  | num (q : ℚ)
  | str (s : Str)
  | arr (xs : List Json)
  | obj (kvs : List (Str × Json))

/-- Python dict item assignment `d[k] = v`: replace in place, else append. -/
def dictSet (kvs : List (Str × Json)) (k : Str) (v : Json) : List (Str × Json) :=
  match kvs with
  | [] => [(k, v)]
  | (k', v') :: rest =>
    if k' = k then (k', v) :: rest else (k', v') :: dictSet rest k v

/-- Python `d.get(k)` on the dict embedding (keys are unique by
construction, so the first hit is the binding). -/
def jLookup (kvs : List (Str × Json)) (k : Str) : Option Json :=
  (kvs.find? (fun p => p.1 == k)).map (fun p => p.2)

/-- Value of a hex digit, by code point: `0`-`9`, `a`-`f`, `A`-`F`. -/
def hexVal (c : Char) : Option Nat :=
  let n := c.toNat
  if 48 ≤ n ∧ n ≤ 57 then some (n - 48)
  else if 97 ≤ n ∧ n ≤ 102 then some (n - 87)
  else if 65 ≤ n ∧ n ≤ 70 then some (n - 55)
  else none

/-- JSON string body after the opening quote, in strict mode: escapes are
decoded, raw control characters are rejected, `\uXXXX` surrogate pairs are
combined.  Returns the decoded content and the input after the closing
quote. -/
def jString : Str → Option (Str × Str)
  | [] => none
  | '"' :: rest => some ([], rest)
  | '\\' :: 'u' :: h1 :: h2 :: h3 :: h4 :: rest =>
    match hexVal h1, hexVal h2, hexVal h3, hexVal h4 with
    | some a, some b, some c, some d =>
      let n := 4096 * a + 256 * b + 16 * c + d
      if 55296 ≤ n ∧ n ≤ 56319 then
        -- high surrogate: Python pairs it with a following low surrogate
        match rest with
        | '\\' :: 'u' :: g1 :: g2 :: g3 :: g4 :: rest2 =>
          match hexVal g1, hexVal g2, hexVal g3, hexVal g4 with
          | some a2, some b2, some c2, some d2 =>
            let m := 4096 * a2 + 256 * b2 + 16 * c2 + d2
            if 56320 ≤ m ∧ m ≤ 57343 then
              (jString rest2).map (fun p =>
                (Char.ofNat (65536 + 1024 * (n - 55296) + (m - 56320)) :: p.1,
                 p.2))
            else none
          | _, _, _, _ => none
        | _ => none
      else if 56320 ≤ n ∧ n ≤ 57343 then none
      else (jString rest).map (fun p => (Char.ofNat n :: p.1, p.2))
    | _, _, _, _ => none
  | '\\' :: e :: rest =>
    let dec : Option Char :=
      if e = '"' then some '"'
      else if e = '\\' then some '\\'
      else if e = '/' then some '/'
      else if e = 'b' then some '\x08'
      else if e = 'f' then some '\x0c'
      else if e = 'n' then some '\n'
      else if e = 'r' then some '\r'
      else if e = 't' then some '\t'
      else none
    match dec with
    | some c => (jString rest).map (fun p => (c :: p.1, p.2))
    | none => none
  | c :: rest =>
    if c.toNat < 0x20 then none
    else (jString rest).map (fun p => (c :: p.1, p.2))

/-- Value of a decimal digit, by code point. -/
def digitVal (c : Char) : Nat := c.toNat - 48

/-- Digit run to a natural number. -/
def digitsToNat (ds : Str) : Nat :=
  ds.foldl (fun acc c => 10 * acc + digitVal c) 0

/-- The exact rational `±(ip.fp) × 10^ex`, assembled as a single integer
quotient so the value is kernel-computable:
`(ip·10^|fp| + fp) · 10^ex / 10^|fp|`. -/
def ratOfParts (neg : Bool) (ip fp : Str) (ex : Int) : ℚ :=
  let mant : Nat := digitsToNat ip * 10 ^ fp.length + digitsToNat fp
  let q : ℚ :=
    match ex with
    | Int.ofNat e =>
      Rat.divInt (Int.ofNat (mant * 10 ^ e)) (Int.ofNat (10 ^ fp.length))
    | Int.negSucc e =>
      Rat.divInt (Int.ofNat mant) (Int.ofNat (10 ^ (fp.length + (e + 1))))
  if neg then Rat.neg q else q

/-- JSON number per the decoder's regex
`(-?(?:0|[1-9]\d*))(\.\d+)?([eE][-+]?\d+)?`, valued exactly in `ℚ`. -/
def jNumber (s : Str) : Option (ℚ × Str) :=
  let signed : Bool × Str := match s with
    | '-' :: r => (true, r)
    | _ => (false, s)
  let (neg, s1) := signed
  let intPart : Option (Str × Str) := match s1 with
    | '0' :: r => some (['0'], r)
    | c :: r =>
      if c.isDigit then
        some (c :: r.takeWhile Char.isDigit, r.dropWhile Char.isDigit)
      else none
    | [] => none
  match intPart with
  | none => none
  | some (ip, s2) =>
    let fracPart : Str × Str := match s2 with
      | '.' :: r2 =>
        if (r2.takeWhile Char.isDigit).isEmpty then ([], s2)
        else (r2.takeWhile Char.isDigit, r2.dropWhile Char.isDigit)
      | _ => ([], s2)
    let (fp, s3) := fracPart
    let expPart : Option Int × Str := match s3 with
      | e :: r3 =>
        if e = 'e' ∨ e = 'E' then
          let sgn : Bool × Str := match r3 with
            | '-' :: r4 => (true, r4)
            | '+' :: r4 => (false, r4)
            | _ => (false, r3)
          let (eneg, r5) := sgn
          if (r5.takeWhile Char.isDigit).isEmpty then (none, s3)
          else
            let ev : Int := digitsToNat (r5.takeWhile Char.isDigit)
            (some (if eneg then -ev else ev), r5.dropWhile Char.isDigit)
        else (none, s3)
      | [] => (none, s3)
    let (ex, s4) := expPart
    some (ratOfParts neg ip fp (ex.getD 0), s4)

mutual

/-- One JSON value at the current (whitespace-free) position; the fuel only
bounds recursion and is chosen large enough at the top level. -/
def jValue : Nat → Str → Option (Json × Str)
  | 0, _ => none
  | fuel + 1, s =>
    match s with
    | [] => none
    | '"' :: r => (jString r).map (fun p => (Json.str p.1, p.2))
    | '{' :: r => jObjStart fuel (skipJsonWs r)
    | '[' :: r => jArrStart fuel (skipJsonWs r)
    | c :: _ =>
      if c = 't' then
        if startsWith (s2l "true") s then some (Json.bool true, s.drop 4) else none
      else if c = 'f' then
        if startsWith (s2l "false") s then some (Json.bool false, s.drop 5) else none
      else if c = 'n' then
        if startsWith (s2l "null") s then some (Json.null, s.drop 4) else none
      else if c = '-' || c.isDigit then
        (jNumber s).map (fun p => (Json.num p.1, p.2))
      else none

/-- Object body directly after the opening brace (whitespace skipped). -/
def jObjStart : Nat → Str → Option (Json × Str)
  | 0, _ => none
  | fuel + 1, s =>
    match s with
    | '}' :: r => some (Json.obj [], r)
    | _ => jObjMember fuel s []

/-- One `"key": value` member; duplicate keys overwrite (last wins). -/
def jObjMember : Nat → Str → List (Str × Json) → Option (Json × Str)
  | 0, _, _ => none
  | fuel + 1, s, acc =>
    match s with
    | '"' :: r =>
      match jString r with
      | none => none
      | some (k, r2) =>
        match skipJsonWs r2 with
        | ':' :: r3 =>
          match jValue fuel (skipJsonWs r3) with
          | none => none
          | some (v, r4) => jObjSep fuel (skipJsonWs r4) (dictSet acc k v)
        | _ => none
    | _ => none

/-- After a member: comma continues, closing brace finishes. -/
def jObjSep : Nat → Str → List (Str × Json) → Option (Json × Str)
  | 0, _, _ => none
  | fuel + 1, s, acc =>
    match s with
    | '}' :: r => some (Json.obj acc, r)
    | ',' :: r => jObjMember fuel (skipJsonWs r) acc
    | _ => none

/-- Array body directly after the opening bracket (whitespace skipped). -/
def jArrStart : Nat → Str → Option (Json × Str)
  | 0, _ => none
  | fuel + 1, s =>
    match s with
    | ']' :: r => some (Json.arr [], r)
    | _ => jArrItem fuel s []

/-- One array element. -/
def jArrItem : Nat → Str → List Json → Option (Json × Str)
  | 0, _, _ => none
  | fuel + 1, s, acc =>
    match jValue fuel s with
    | none => none
    | some (v, r) => jArrSep fuel (skipJsonWs r) (acc ++ [v])

/-- After an element: comma continues, closing bracket finishes. -/
def jArrSep : Nat → Str → List Json → Option (Json × Str)
  | 0, _, _ => none
  | fuel + 1, s, acc =>
    match s with
    | ']' :: r => some (Json.arr acc, r)
    | ',' :: r => jArrItem fuel (skipJsonWs r) acc
    | _ => none

end

/-- Python `json.loads`: one value, optionally surrounded by whitespace;
anything left over is an error.  The fuel bound is generous: every third
recursive call consumes at least one input character. -/
def jsonLoads (s : Str) : Option Json :=
  match jValue (3 * s.length + 3) (skipJsonWs s) with
  | some (v, rest) => if skipJsonWs rest = [] then some v else none
  | none => none

/-! ### ResponseParser stage 3: regex fallback extraction
Source: `horse_barn_monitor.py` lines 105-133 (`_extract_from_truncated`).
Each regex is embedded as an explicit leftmost matcher.  As with the fence
regex, backtracking is resolved once and for all: each greedy run
(`\s*`, `\w+`, `[^"]*`, `[\d.]+`) is followed by a literal that its own
character class excludes, so the maximal run is the only candidate. -/

/-- Match a literal, returning the rest of the input. -/
def lit (pat s : Str) : Option Str :=
  if startsWith pat s then some (s.drop pat.length) else none

/-- Python `\w` (ASCII range; Unicode word characters are not modelled,
no claim depends on them). -/
def isWordChar (c : Char) : Bool := c.isAlphanum || c == '_'

/-- Python `re.search`: try the anchored matcher at each start position,
left to right. -/
def reSearch {α : Type} (m : Str → Option α) : Str → Option α
  | [] => m []
  | c :: r =>
    match m (c :: r) with
    | some a => some a
    | none => reSearch m r

/-- Anchored matcher for `"severity"\s*:\s*"(\w+)"` (line 113). -/
def matchSeverityAt (s : Str) : Option Str := do
  let s ← lit (s2l "\"severity\"") s
  let s ← lit (s2l ":") (s.dropWhile pyWs)
  let s ← lit (s2l "\"") (s.dropWhile pyWs)
  let w := s.takeWhile isWordChar
  if w.isEmpty then none
  else do
    let _ ← lit (s2l "\"") (s.dropWhile isWordChar)
    pure w

/-- Anchored matcher for `"<key>"\s*:\s*"([^"]*)"` (lines 114, 115, 117);
`key` carries its surrounding quotes. -/
def matchStrFieldAt (key : Str) (s : Str) : Option Str := do
  let s ← lit key s
  let s ← lit (s2l ":") (s.dropWhile pyWs)
  let s ← lit (s2l "\"") (s.dropWhile pyWs)
  match s.dropWhile (fun c => c != '"') with
  | '"' :: _ => pure (s.takeWhile (fun c => c != '"'))
  | _ => none

/-- Anchored matcher for `"confidence"\s*:\s*([\d.]+)` (line 116). -/
def matchConfidenceAt (s : Str) : Option Str := do
  let s ← lit (s2l "\"confidence\"") s
  let s ← lit (s2l ":") (s.dropWhile pyWs)
  let run := (s.dropWhile pyWs).takeWhile (fun c => c.isDigit || c == '.')
  if run.isEmpty then none else pure run

/-- Anchored matcher for `"hazards"\s*:\s*\[(.*?)\]` with `re.DOTALL`
(line 121): the lazy group reaches to the first closing bracket. -/
def matchHazardsAt (s : Str) : Option Str := do
  let s ← lit (s2l "\"hazards\"") s
  let s ← lit (s2l ":") (s.dropWhile pyWs)
  let s ← lit (s2l "[") (s.dropWhile pyWs)
  match s.dropWhile (fun c => c != ']') with
  | ']' :: _ => pure (s.takeWhile (fun c => c != ']'))
  | _ => none

set_option linter.unusedVariables false in
/-- Python `re.findall(r'"([^\"]+)"', t)` (line 123): non-overlapping
quoted nonempty runs, left to right. -/
def findallQuoted : Str → List Str
  | [] => []
  | c :: rest =>
    if c = '"' then
      match h : rest.dropWhile (fun x => x != '"') with
      | '"' :: tail =>
        if (rest.takeWhile (fun x => x != '"')).isEmpty then findallQuoted rest
        else rest.takeWhile (fun x => x != '"') :: findallQuoted tail
      | _ => []
    else findallQuoted rest
termination_by s => s.length
decreasing_by
  all_goals simp_wf
  all_goals
    have h1 := (List.dropWhile_sublist (l := r) (fun x => x != '"')).length_le
  all_goals rw [h] at h1
  all_goals simp at h1
  all_goals omega

/-- Python `float()` restricted to the nonempty digits-and-dots tokens the
confidence pattern can produce: accepts at most one dot and at least one
digit, with exact decimal value; anything else raises `ValueError`
(embedded as `none`). -/
def pyFloat (s : Str) : Option ℚ :=
  let ip := s.takeWhile Char.isDigit
  match s.dropWhile Char.isDigit with
  | [] => if ip.isEmpty then none else some (ratOfParts false ip [] 0)
  | '.' :: fp =>
    if fp.all Char.isDigit && !(ip.isEmpty && fp.isEmpty) then
      some (ratOfParts false ip fp 0)
    else none
  | _ => none

set_option linter.unusedVariables false in
/-- The fallback extractor `_extract_from_truncated(clean, raw)`
(`horse_barn_monitor.py` lines 105-133).  All patterns run against `raw`
(the `clean` parameter is unused in the source as well); a `ValueError`
from `float()` propagates as `none`. -/
def extract_from_truncated (clean raw : Str) : Option Json :=
  let severity := (reSearch matchSeverityAt raw).getD (s2l "MONITOR")
  let description :=
    (reSearch (matchStrFieldAt (s2l "\"description\"")) raw).getD (raw.take 200)
  let horse_state :=
    (reSearch (matchStrFieldAt (s2l "\"horse_state\"")) raw).getD (s2l "unknown")
  match pyFloat ((reSearch matchConfidenceAt raw).getD (s2l "0.5")) with
  | none => none
  | some confidence =>
    let action :=
      (reSearch (matchStrFieldAt (s2l "\"recommended_action\"")) raw).getD (s2l "log")
    let hazards := match reSearch matchHazardsAt raw with
      | some body => findallQuoted body
      | none => []
    some (Json.obj
      [(s2l "severity", Json.str severity),
       (s2l "description", Json.str description),
       (s2l "hazards", Json.arr (hazards.map Json.str)),
       (s2l "horse_state", Json.str horse_state),
       (s2l "confidence", Json.num confidence),
       (s2l "recommended_action", Json.str action),
       (s2l "truncated", Json.bool true)])

/-- The response-parsing portion of `analyze_frame`
(`horse_barn_monitor.py` lines 237-252): strip, unfence, strict parse,
regex fallback on `json.JSONDecodeError`.  `none` is a raised exception
(only the fallback's `float()` can raise here). -/
def parseResponse (text : Str) : Option Json :=
  let clean := fenceStage (pyStrip text)
  match jsonLoads clean with
  | some analysis => some analysis
  | none => extract_from_truncated clean text

/-- The confidence token handed to `float()` by the fallback extractor
(`horse_barn_monitor.py` line 116): the matched digits-and-dots run, or
the default `"0.5"`. -/
def confToken (raw : Str) : Str :=
  (reSearch matchConfidenceAt raw).getD (s2l "0.5")

/-- Field access on an optional parse result (`analysis.get(k)`). -/
def verdictField (j : Option Json) (k : Str) : Option Json :=
  match j with
  | some (Json.obj kvs) => jLookup kvs k
  | _ => none

/-- The `truncated` flag of a parse result: set only when the fallback
extractor built the dict (the strict path never writes the key). -/
def verdictTruncated : Json → Bool
  | Json.obj kvs =>
    match jLookup kvs (s2l "truncated") with
    | some (Json.bool b) => b
    | some _ => true
    | none => false
  | _ => false

/-- The output schema stated in the system prompt
(`horse_barn_monitor.py` lines 56-64): exactly the six fields, `severity`
one of the four levels, `hazards` an array of strings, `horse_state` one of
the seven behavioral states, `confidence` in `[0, 1]`, and
`recommended_action` one of the four actions. -/
def matchesSchema : Json → Bool
  | Json.obj kvs =>
    kvs.length == 6 &&
    (match jLookup kvs (s2l "severity") with
     | some (Json.str v) =>
       decide (v = s2l "SAFE" ∨ v = s2l "MONITOR" ∨ v = s2l "WARNING" ∨
         v = s2l "DANGER")
     | _ => false) &&
    (match jLookup kvs (s2l "description") with
     | some (Json.str _) => true
     | _ => false) &&
    (match jLookup kvs (s2l "hazards") with
     | some (Json.arr xs) =>
       xs.all (fun x => match x with | Json.str _ => true | _ => false)
     | _ => false) &&
    (match jLookup kvs (s2l "horse_state") with
     | some (Json.str v) =>
       decide (v ∈ [s2l "standing", s2l "lying", s2l "rolling", s2l "moving",
         s2l "not_visible", s2l "eating", s2l "stressed"])
     | _ => false) &&
    (match jLookup kvs (s2l "confidence") with
     | some (Json.num q) => decide (0 ≤ q ∧ q ≤ 1)
     | _ => false) &&
    (match jLookup kvs (s2l "recommended_action") with
     | some (Json.str v) =>
       decide (v ∈ [s2l "none", s2l "log", s2l "alert_owner", s2l "emergency"])
     | _ => false)
  | _ => false

/-! ### ImageCodec and FrameAnalyzer
Source: `horse_barn_monitor.py` lines 136-148 (`encode_image`) and 186-268
(`analyze_frame`).  File contents are `Option (List Nat)` (`none` =
unreadable path, on which `open`/`Image.open` raises), and the inference
call's outcome is a parameter (`Except.error` = a raised network error).
The PIL resize path is abstracted: the modelled branch is the no-PIL
fallback, raw bytes to base64; nothing below depends on the pixel
transform. -/

/-- Python `os.path.basename`. -/
def basename (p : Str) : Str := (p.reverse.takeWhile (fun c => c != '/')).reverse

/-- The base64 alphabet. -/
def b64Alphabet : Str :=
  s2l "ABCDEFGHIJKLMNOPQRSTUVWXYZabcdefghijklmnopqrstuvwxyz0123456789+/"

/-- Base64 digit. -/
def b64Char (n : Nat) : Char := b64Alphabet.getD n 'A'

/-- Standard base64 of a byte list, with padding. -/
def b64encode : List Nat → Str
  | [] => []
  | [a] => [b64Char (a / 4), b64Char (a % 4 * 16), '=', '=']
  | [a, b] => [b64Char (a / 4), b64Char (a % 4 * 16 + b / 16),
               b64Char (b % 16 * 4), '=']
  | a :: b :: c :: rest =>
    b64Char (a / 4) :: b64Char (a % 4 * 16 + b / 16) ::
      b64Char (b % 16 * 4 + c / 64) :: b64Char (c % 64) :: b64encode rest

/-- The `encode_image` of `horse_barn_monitor.py` lines 136-148: reading an
unreadable path raises (`FileNotFoundError`/`OSError`), and nothing inside
the function catches it — only `ImportError` has a handler. -/
def encode_image (file : Option (List Nat)) : Except Str Str :=
  match file with
  | none => Except.error (s2l "FileNotFoundError")
  | some bytes => Except.ok (b64encode bytes)

/-- The error dict built by the `except` handler of `analyze_frame`
(`horse_barn_monitor.py` lines 263-268). -/
def errDict (e image_path now : Str) : Json :=
  Json.obj [(s2l "error", Json.str e),
            (s2l "frame", Json.str (basename image_path)),
            (s2l "timestamp", Json.str now)]

/-- The `analyze_frame` of `horse_barn_monitor.py` lines 186-268.
`encode_image` runs before the `try` block (line 190), so an exception it
raises propagates out uncaught (`Except.error`); an empty payload returns
the early error dict (lines 191-192); a raised inference error, a
`ValueError` from the fallback's `float()`, and a `TypeError` from
stamping a non-dict strict parse are all caught by the `except` handler
(line 263) and become the error dict.  The `round(latency, 2)` float
rounding is real-time metadata and is not modelled. -/
def analyze_frame (file : Option (List Nat)) (infer : Except Str Str)
    (latency : ℚ) (image_path now : Str) : Except Str Json :=
  match encode_image file with
  | Except.error e => Except.error e
  | Except.ok img_data =>
    if img_data.isEmpty then
      Except.ok (Json.obj
        [(s2l "error", Json.str (s2l "Failed to encode image: " ++ image_path))])
    else
      match infer with
      | Except.error e => Except.ok (errDict e image_path now)
      | Except.ok text =>
        match parseResponse text with
        | some (Json.obj kvs) =>
          Except.ok (Json.obj
            (dictSet
              (dictSet
                (dictSet kvs (s2l "latency_s") (Json.num latency))
                (s2l "frame") (Json.str (basename image_path)))
              (s2l "timestamp") (Json.str now)))
        | some _ => Except.ok (errDict (s2l "TypeError") image_path now)
        | none => Except.ok (errDict (s2l "ValueError") image_path now)

/-! ### SeverityPolicy
Source: `horse_barn_monitor.py` lines 45-50 (the `SEVERITY_LEVELS` dict) and
`barn_monitor_realtime.py` lines 238-239 (`SEVERITY_LEVELS.get(severity, 0)`,
`if sev_level >= 2`). -/

/-- The `SEVERITY_LEVELS` dict of `horse_barn_monitor.py` lines 45-50. -/
def SEVERITY_LEVELS : List (Str × Nat) :=
  [(s2l "SAFE", 0), (s2l "MONITOR", 1), (s2l "WARNING", 2), (s2l "DANGER", 3)]

/-- Python `dict.get(key, default)` on an association list. -/
def dictGet (d : List (Str × Nat)) (k : Str) (default : Nat) : Nat :=
  match d.find? (fun p => p.1 == k) with
  | some p => p.2
  | none => default

/-- The severity-to-ordinal mapping: `SEVERITY_LEVELS.get(severity, 0)`
(`barn_monitor_realtime.py` line 238, also line 134). -/
def sevLevel (severity : Str) : Nat := dictGet SEVERITY_LEVELS severity 0

/-- The alert threshold: `sev_level >= 2`
(`barn_monitor_realtime.py` line 239, also line 135). -/
def shouldAlert (level : Nat) : Bool := 2 ≤ level

/-! ### Latency-aware pacing
Source: `barn_monitor_realtime.py` lines 246-249. -/

/-- The wait computed by `monitor_camera` before the next capture:
`wait = max(0, interval - latency)` (`barn_monitor_realtime.py` line 247). -/
def monitorCameraWait (interval latency : ℚ) : ℚ := max 0 (interval - latency)

/-! ### PollingLoop over a finite video
Source: `barn_monitor_realtime.py` lines 92-143 (`monitor_video`): the loop
runs `while t < duration`, and every branch of the body — extraction failure
(line 104), an error dict from `analyze_frame` (line 116), and success
(line 143) — executes `t += interval` and continues the loop. -/

/-- The sequence of positions visited by the `monitor_video` loop together
with the per-position outcome drawn from an oracle (`none` = frame extraction
failed, `some false` = `analyze_frame` returned an error dict, `some true` =
analysis succeeded).  The loop structure is identical in all three cases. -/
def monitorVideoVisits :
    Nat → ℚ → ℚ → ℚ → (ℚ → Option Bool) → List (ℚ × Option Bool)
  | 0, _, _, _, _ => []
  | fuel + 1, t, duration, interval, oracle =>
    if t < duration then
      (t, oracle t) :: monitorVideoVisits fuel (t + interval) duration interval oracle
    else []

/-! ### Frame sampling in `analyze_directory`
Source: `horse_barn_monitor.py` lines 316-319:
`step = max(1, len(frames) // sample); frames = frames[::step][:sample]`. -/

/-- Helper for the Python extended slice `l[::k]`: `c` counts down to the
next kept element (an element is kept when `c = 0`, after which the counter
resets to `k - 1`). -/
def everyNthAux {α : Type} : List α → Nat → Nat → List α
  | [], _, _ => []
  | x :: xs, 0, k => x :: everyNthAux xs (k - 1) k
  | _ :: xs, c + 1, k => everyNthAux xs c k

/-- Python extended slice `l[::k]` for `k ≥ 1`: every `k`-th element,
starting with the first. -/
def everyNth {α : Type} (l : List α) (k : Nat) : List α := everyNthAux l 0 k

/-- The frame-selection step of `analyze_directory`
(`horse_barn_monitor.py` lines 316-319). -/
def sampleFrames {α : Type} (frames : List α) (sample : Nat) : List α :=
  if 0 < sample then
    (everyNth frames (max 1 (frames.length / sample))).take sample
  else frames

/-! ### Supporting lemmas -/

/-! ### String-level lemmas used by the fence-stripping proofs -/

/-- Unfolding of `startsWith` into an append decomposition. -/
theorem startsWith_iff (p s : Str) : startsWith p s = true ↔ ∃ t, s = p ++ t := by
  induction p generalizing s with
  | nil =>
    simp only [startsWith, List.isPrefixOf, List.nil_append]
    exact ⟨fun _ => ⟨s, rfl⟩, fun _ => trivial⟩
  | cons a p ih =>
    cases s with
    | nil => simp [startsWith, List.isPrefixOf]
    | cons b s =>
      rw [show startsWith (a :: p) (b :: s) = ((a == b) && startsWith p s) from rfl]
      simp only [Bool.and_eq_true, beq_iff_eq, ih]
      constructor
      · rintro ⟨rfl, t, rfl⟩; exact ⟨t, rfl⟩
      · rintro ⟨t, h⟩
        injection h with h1 h2
        exact ⟨h1.symm, t, h2⟩

/-- Right-stripping splits off a whitespace tail. -/
theorem rstripWs_decomp (x : Str) :
    ∃ w, x = rstripWs x ++ w ∧ ∀ c ∈ w, pyWs c = true := by
  refine ⟨(x.reverse.takeWhile pyWs).reverse, ?_, ?_⟩
  · calc x = x.reverse.reverse := (List.reverse_reverse x).symm
      _ = (x.reverse.takeWhile pyWs ++ x.reverse.dropWhile pyWs).reverse := by
          rw [List.takeWhile_append_dropWhile]
      _ = (x.reverse.dropWhile pyWs).reverse ++ (x.reverse.takeWhile pyWs).reverse :=
          List.reverse_append _ _
  · intro c hc
    rw [List.mem_reverse] at hc
    exact List.mem_takeWhile_imp hc

/-- A stripped line that starts with the fence delimiter decomposes as
whitespace, the delimiter, and a remainder. -/
theorem startsWith_pyStrip_elim (l : Str)
    (h : startsWith (s2l "```") (pyStrip l) = true) :
    ∃ w g, l = w ++ (s2l "```" ++ g) ∧ ∀ c ∈ w, pyWs c = true := by
  obtain ⟨t, ht⟩ := (startsWith_iff _ _).mp h
  obtain ⟨w2, hw2, _⟩ := rstripWs_decomp (l.dropWhile pyWs)
  refine ⟨l.takeWhile pyWs, t ++ w2, ?_, ?_⟩
  · conv_lhs => rw [← List.takeWhile_append_dropWhile (p := pyWs) (l := l)]
    rw [hw2, show rstripWs (l.dropWhile pyWs) = pyStrip l from rfl, ht]
    simp [List.append_assoc]
  · intro c hc; exact List.mem_takeWhile_imp hc

/-- Stripping preserves a leading fence delimiter. -/
theorem startsWith_pyStrip_intro (x : Str)
    (h : startsWith (s2l "```") x = true) :
    startsWith (s2l "```") (pyStrip x) = true := by
  obtain ⟨t, rfl⟩ := (startsWith_iff _ _).mp h
  have h1 : (s2l "```" ++ t).dropWhile pyWs = s2l "```" ++ t := by
    rw [show s2l "```" ++ t = bt :: (s2l "``" ++ t) from rfl, List.dropWhile_cons]
    simp [show pyWs bt = false from by decide]
  rw [pyStrip, h1, rstripWs, List.reverse_append, List.dropWhile_append]
  by_cases he : (t.reverse.dropWhile pyWs).isEmpty
  · rw [if_pos he,
      show (s2l "```").reverse.dropWhile pyWs = (s2l "```").reverse from by decide]
    decide
  · rw [if_neg he, List.reverse_append, List.reverse_reverse]
    exact (startsWith_iff _ _).mpr ⟨_, rfl⟩

/-- Splitting on newlines never yields an empty list of lines. -/
theorem splitNl_ne_nil (s : Str) : splitNl s ≠ [] := by
  cases s with
  | nil => simp [splitNl]
  | cons c r =>
    by_cases h : c = '\n'
    · simp [splitNl, h]
    · cases hsr : splitNl r with
      | nil => simp [splitNl, h, hsr]
      | cons l ls => simp [splitNl, h, hsr]

/-- Splitting a string on newlines and joining with newlines is the
identity (Python `"\n".join(s.split("\n")) == s`). -/
theorem joinNl_splitNl (s : Str) : joinNl (splitNl s) = s := by
  induction s with
  | nil => rfl
  | cons c r ih =>
    by_cases h : c = '\n'
    · subst h
      rw [show splitNl ('\n' :: r) = [] :: splitNl r from by simp [splitNl]]
      obtain ⟨l, ls, hls⟩ := List.exists_cons_of_ne_nil (splitNl_ne_nil r)
      rw [hls, show joinNl ([] :: l :: ls) = [] ++ '\n' :: joinNl (l :: ls) from rfl,
        ← hls, ih]
      rfl
    · cases hsr : splitNl r with
      | nil => exact absurd hsr (splitNl_ne_nil r)
      | cons l ls =>
        rw [show splitNl (c :: r) = (c :: l) :: ls from by simp [splitNl, h, hsr]]
        cases ls with
        | nil =>
          have hr : joinNl [l] = r := by rw [← hsr, ih]
          rw [show joinNl [c :: l] = c :: l from rfl]
          rw [show joinNl [l] = l from rfl] at hr
          rw [hr]
        | cons l2 ls2 =>
          have hr : joinNl (l :: l2 :: ls2) = r := by rw [← hsr, ih]
          rw [show joinNl ((c :: l) :: l2 :: ls2) =
              (c :: l) ++ '\n' :: joinNl (l2 :: ls2) from rfl]
          rw [show joinNl (l :: l2 :: ls2) = l ++ '\n' :: joinNl (l2 :: ls2) from rfl]
            at hr
          rw [List.cons_append, hr]

/-- A non-head line sits after a newline inside the joined string. -/
theorem joinNl_mem (x : Str) (ls : List Str) (l : Str) (hl : l ∈ ls) :
    ∃ A C, joinNl (x :: ls) = A ++ ('\n' :: (l ++ C)) := by
  induction ls generalizing x with
  | nil => simp at hl
  | cons y ls ih =>
    rw [show joinNl (x :: y :: ls) = x ++ '\n' :: joinNl (y :: ls) from rfl]
    rcases List.mem_cons.mp hl with rfl | hl'
    · cases ls with
      | nil => exact ⟨x, [], by simp [joinNl]⟩
      | cons z ls2 =>
        exact ⟨x, '\n' :: joinNl (z :: ls2),
          by rw [show joinNl (l :: z :: ls2) = l ++ '\n' :: joinNl (z :: ls2) from rfl]⟩
    · obtain ⟨A, C, hAC⟩ := ih y hl'
      refine ⟨x ++ '\n' :: A, C, ?_⟩
      rw [hAC]
      simp

/-- Splitting a string that extends a shorter one by a non-newline head. -/
theorem splitNl_cons_head (c : Char) (r : Str) (h : ¬ c = '\n') :
    ∃ l ls, splitNl r = l :: ls ∧ splitNl (c :: r) = (c :: l) :: ls := by
  obtain ⟨l, ls, hls⟩ := List.exists_cons_of_ne_nil (splitNl_ne_nil r)
  exact ⟨l, ls, hls, by simp [splitNl, h, hls]⟩

/-- The first line of a fence-opened string still starts with the fence. -/
theorem splitNl_head_bt (s : Str) (h : startsWith (s2l "```") s = true) :
    ∃ h0 tl, splitNl s = h0 :: tl ∧ startsWith (s2l "```") h0 = true := by
  obtain ⟨t, rfl⟩ := (startsWith_iff _ _).mp h
  have hb : ¬ (bt = '\n') := by decide
  obtain ⟨l1, ls1, h1, e1⟩ := splitNl_cons_head bt t hb
  rw [show splitNl (bt :: t) = splitNl (bt :: t) from rfl] at e1
  obtain ⟨l2, ls2, h2, e2⟩ := splitNl_cons_head bt (bt :: t) hb
  obtain ⟨l3, ls3, h3, e3⟩ := splitNl_cons_head bt (bt :: bt :: t) hb
  rw [e1] at h2
  injection h2 with h2a h2b
  subst h2a; subst h2b
  rw [e2] at h3
  injection h3 with h3a h3b
  subst h3a; subst h3b
  refine ⟨bt :: bt :: bt :: l1, ls1, ?_, ?_⟩
  · exact e3
  · exact (startsWith_iff _ _).mpr ⟨l1, rfl⟩

/-- The characters skipped by `afterOpen` are whitespace or letters of
the literal `json`. -/
theorem afterOpen_decomp (s : Str) :
    ∃ pre, s = pre ++ afterOpen s ∧
      ∀ c ∈ pre, pyWs c = true ∨ c ∈ s2l "json" := by
  rw [afterOpen]
  by_cases hj : startsWith (s2l "json") s = true
  · obtain ⟨t, rfl⟩ := (startsWith_iff _ _).mp hj
    rw [if_pos hj, show (s2l "json" ++ t).drop 4 = t from List.drop_left' (by decide)]
    refine ⟨s2l "json" ++ t.takeWhile pyWs, ?_, ?_⟩
    · conv_lhs => rw [← List.takeWhile_append_dropWhile (p := pyWs) (l := t)]
      simp [List.append_assoc]
    · intro c hc
      rcases List.mem_append.mp hc with h | h
      · exact Or.inr h
      · exact Or.inl (List.mem_takeWhile_imp h)
  · rw [if_neg hj]
    refine ⟨s.takeWhile pyWs, ?_, ?_⟩
    · conv_lhs => rw [← List.takeWhile_append_dropWhile (p := pyWs) (l := s)]
    · intro c hc; exact Or.inl (List.mem_takeWhile_imp hc)

/-- A delimiter occurrence anywhere in the input makes `fenceGroup` succeed. -/
theorem fenceGroup_isSome (a b : Str) :
    fenceGroup (a ++ (s2l "```" ++ b)) ≠ none := by
  induction a with
  | nil =>
    rw [List.nil_append]
    have hc : startsWith (s2l "```") (bt :: (s2l "``" ++ b)) = true :=
      (startsWith_iff _ _).mpr ⟨b, rfl⟩
    rw [show s2l "```" ++ b = bt :: (s2l "``" ++ b) from rfl]
    simp [fenceGroup, hc]
  | cons c a ih =>
    rw [List.cons_append, fenceGroup]
    by_cases h1 : startsWith (s2l "```") (c :: (a ++ (s2l "```" ++ b))) = true
    · simp [h1]
    · rw [if_neg h1]
      by_cases h2 : (c == '\n' && startsWith (s2l "```") (a ++ (s2l "```" ++ b))) = true
      · simp [h2]
      · rw [if_neg h2]
        cases hfg : fenceGroup (a ++ (s2l "```" ++ b)) with
        | none => exact absurd hfg ih
        | some g => simp [hfg]

/-- When the search fails although the input opens with a fence, the
closing-delimiter scan after the opening necessarily failed. -/
theorem fenceSearch_none_head (c : Char) (r : Str)
    (h1 : startsWith (s2l "```") (c :: r) = true)
    (h2 : fenceSearch (c :: r) = none) :
    fenceGroup (afterOpen (r.drop 2)) = none := by
  rw [fenceSearch, if_pos h1] at h2
  cases hfg : fenceGroup (afterOpen (r.drop 2)) with
  | none => rfl
  | some g => rw [hfg] at h2; simp at h2

/-- Backtick-free character facts used by the surgery argument. -/
theorem fence_chars :
    (∀ z ∈ s2l "```", ¬ z = '\n') ∧
    (∀ z ∈ s2l "```", ¬ (pyWs z = true ∨ z ∈ s2l "json")) ∧
    bt ∈ s2l "```" := by
  decide

/-- The surgery argument: if the whole text (which opens with a fence) has a
later newline followed by optional whitespace and another fence delimiter,
then a fence delimiter survives in `afterOpen` of the part after the opening
delimiter. -/
theorem occurs_in_afterOpen (r0 A w B : Str)
    (heq : s2l "```" ++ r0 = A ++ ('\n' :: (w ++ (s2l "```" ++ B)))) :
    ∃ a b, afterOpen r0 = a ++ (s2l "```" ++ b) := by
  obtain ⟨pre, hpre, hprec⟩ := afterOpen_decomp r0
  have hP : (s2l "```" ++ pre) ++ afterOpen r0 =
      A ++ ('\n' :: (w ++ (s2l "```" ++ B))) := by
    rw [List.append_assoc, ← hpre]; exact heq
  rcases List.append_eq_append_iff.mp hP with ⟨a', _, ha2⟩ | ⟨c', hc1, hc2⟩
  · exact ⟨a' ++ ('\n' :: w), B, by rw [ha2]; simp [List.append_assoc]⟩
  · cases c' with
    | nil =>
      rw [List.nil_append] at hc2
      exact ⟨'\n' :: w, B, by rw [← hc2]; simp⟩
    | cons x c'' =>
      rw [List.cons_append] at hc2
      injection hc2 with hx htail
      subst hx
      have h_cpre : ∀ ch ∈ c'', pyWs ch = true ∨ ch ∈ s2l "json" := by
        rcases List.append_eq_append_iff.mp hc1 with ⟨k, _, hk2⟩ | ⟨k, hk1, hk2⟩
        · intro ch hch
          refine hprec ch ?_
          rw [hk2]
          simp [hch]
        · cases k with
          | nil =>
            rw [List.nil_append] at hk2
            intro ch hch
            refine hprec ch ?_
            rw [← hk2]
            simp [hch]
          | cons y k2 =>
            rw [List.cons_append] at hk2
            injection hk2 with hy _
            have hyG : y ∈ s2l "```" := by rw [hk1]; simp
            exact absurd hy.symm (fence_chars.1 y hyG)
      rcases List.append_eq_append_iff.mp htail.symm with ⟨k, _, hk2⟩ | ⟨k, hk1, hk2⟩
      · exact ⟨k, B, hk2⟩
      · rcases List.append_eq_append_iff.mp hk2 with ⟨k2, hk21, _⟩ | ⟨k2, hk21, hk22⟩
        · exfalso
          have hbt : bt ∈ c'' := by
            rw [hk1, hk21]
            simp [fence_chars.2.2]
          exact fence_chars.2.1 bt (by decide) (h_cpre bt hbt)
        · cases k with
          | nil =>
            rw [List.nil_append] at hk21
            exact ⟨[], B, by rw [hk22, ← hk21]; simp⟩
          | cons y k3 =>
            exfalso
            have hy3 : y ∈ s2l "```" := by rw [hk21]; simp
            have hyc : y ∈ c'' := by rw [hk1]; simp
            exact fence_chars.2.1 y hy3 (h_cpre y hyc)

/-- The fallback branch of `fenceStage` removes exactly the first line:
no later line can strip to a fence opening, for that would have made the
fence regex match. -/
theorem fenceStage_of_none (s : Str) (hn : fenceSearch s = none)
    (hsw : startsWith (s2l "```") s = true) :
    fenceStage s = joinNl ((splitNl s).tail) := by
  obtain ⟨h0, tl, hsplit, hh0⟩ := splitNl_head_bt s hsw
  obtain ⟨r0, hs⟩ := (startsWith_iff _ _).mp hsw
  have hfg : fenceGroup (afterOpen r0) = none := by
    have h1 : startsWith (s2l "```") (bt :: (s2l "``" ++ r0)) = true :=
      (startsWith_iff _ _).mpr ⟨r0, rfl⟩
    have h2 : fenceSearch (bt :: (s2l "``" ++ r0)) = none := by
      rw [show bt :: (s2l "``" ++ r0) = s2l "```" ++ r0 from rfl, ← hs]; exact hn
    have h3 := fenceSearch_none_head bt (s2l "``" ++ r0) h1 h2
    rwa [show (s2l "``" ++ r0).drop 2 = r0 from List.drop_left' (by decide)] at h3
  have htl : ∀ l ∈ tl, startsWith (s2l "```") (pyStrip l) = false := by
    intro l hl
    by_contra hcon
    rw [Bool.not_eq_false] at hcon
    obtain ⟨w, g, hlw, _⟩ := startsWith_pyStrip_elim l hcon
    obtain ⟨A, C, hAC⟩ := joinNl_mem h0 tl l hl
    rw [← hsplit, joinNl_splitNl] at hAC
    have hs2 : s2l "```" ++ r0 = A ++ ('\n' :: (w ++ (s2l "```" ++ (g ++ C)))) := by
      rw [← hs, hAC, hlw]; simp [List.append_assoc]
    obtain ⟨a, b, hab⟩ := occurs_in_afterOpen r0 A w (g ++ C) hs2
    rw [hab] at hfg
    exact fenceGroup_isSome a b hfg
  have hkeep : ∀ l ∈ tl, (!(startsWith (s2l "```") (pyStrip l))) = true := by
    intro l hl; rw [htl l hl]; rfl
  have hdrop : (!(startsWith (s2l "```") (pyStrip h0))) = false := by
    rw [startsWith_pyStrip_intro h0 hh0]; rfl
  rw [fenceStage, hn, if_pos hsw, hsplit, List.filter_cons, hdrop]
  simp only [Bool.false_eq_true, if_false, List.tail_cons]
  rw [List.filter_eq_self.mpr hkeep]

/-- Once the position reaches the duration the loop body never runs again. -/
theorem monitorVideoVisits_stop (fuel : Nat) (t duration interval : ℚ)
    (o : ℚ → Option Bool) (h : ¬ t < duration) :
    monitorVideoVisits fuel t duration interval o = [] := by
  cases fuel <;> simp [monitorVideoVisits, h]

/-- Slicing with any counter state yields a sublist (selection in order). -/
theorem everyNthAux_sublist {α : Type} (l : List α) (c k : Nat) :
    List.Sublist (everyNthAux l c k) l := by
  induction l generalizing c with
  | nil => simp [everyNthAux]
  | cons x xs ih =>
    cases c with
    | zero => exact (ih (k - 1)).cons₂ x
    | succ n => exact (ih n).cons x

/-- Taking every `k`-th element yields a sublist (selection in order). -/
theorem everyNth_sublist {α : Type} (l : List α) (k : Nat) :
    List.Sublist (everyNth l k) l := everyNthAux_sublist l 0 k

/-- A successful dict lookup places the key among the keys. -/
theorem mem_keys_of_jLookup {kvs : List (Str × Json)} {k : Str} {v : Json}
    (h : jLookup kvs k = some v) : k ∈ kvs.map Prod.fst := by
  rw [jLookup] at h
  cases hf : kvs.find? (fun p => p.1 == k) with
  | none => rw [hf] at h; simp at h
  | some p =>
    have hp : p.1 = k := by simpa using List.find?_some hf
    have hmem := List.mem_of_find?_eq_some hf
    exact hp ▸ List.mem_map.mpr ⟨p, hmem, rfl⟩

/-- A six-entry dict carrying the six schema keys has no `truncated` key:
the six are distinct, so by counting they exhaust the key list. -/
theorem schema_no_truncated (kvs : List (Str × Json))
    (hS : matchesSchema (Json.obj kvs) = true) :
    jLookup kvs (s2l "truncated") = none := by
  simp only [matchesSchema, Bool.and_eq_true, beq_iff_eq] at hS
  obtain ⟨⟨⟨⟨⟨⟨hlen, hsev⟩, hdesc⟩, hhaz⟩, hhs⟩, hconf⟩, hact⟩ := hS
  have hk1 : s2l "severity" ∈ kvs.map Prod.fst := by
    cases h : jLookup kvs (s2l "severity") with
    | none => rw [h] at hsev; simp at hsev
    | some j => exact mem_keys_of_jLookup h
  have hk2 : s2l "description" ∈ kvs.map Prod.fst := by
    cases h : jLookup kvs (s2l "description") with
    | none => rw [h] at hdesc; simp at hdesc
    | some j => exact mem_keys_of_jLookup h
  have hk3 : s2l "hazards" ∈ kvs.map Prod.fst := by
    cases h : jLookup kvs (s2l "hazards") with
    | none => rw [h] at hhaz; simp at hhaz
    | some j => exact mem_keys_of_jLookup h
  have hk4 : s2l "horse_state" ∈ kvs.map Prod.fst := by
    cases h : jLookup kvs (s2l "horse_state") with
    | none => rw [h] at hhs; simp at hhs
    | some j => exact mem_keys_of_jLookup h
  have hk5 : s2l "confidence" ∈ kvs.map Prod.fst := by
    cases h : jLookup kvs (s2l "confidence") with
    | none => rw [h] at hconf; simp at hconf
    | some j => exact mem_keys_of_jLookup h
  have hk6 : s2l "recommended_action" ∈ kvs.map Prod.fst := by
    cases h : jLookup kvs (s2l "recommended_action") with
    | none => rw [h] at hact; simp at hact
    | some j => exact mem_keys_of_jLookup h
  have hsubset : [s2l "severity", s2l "description", s2l "hazards",
      s2l "horse_state", s2l "confidence", s2l "recommended_action"] ⊆
      kvs.map Prod.fst := by
    intro x hx
    simp only [List.mem_cons, List.not_mem_nil, or_false] at hx
    rcases hx with rfl | rfl | rfl | rfl | rfl | rfl
    · exact hk1
    · exact hk2
    · exact hk3
    · exact hk4
    · exact hk5
    · exact hk6
  have hsp := List.subperm_of_subset (by decide) hsubset
  have hperm := hsp.perm_of_length_le (by simp [hlen])
  have hnotin : s2l "truncated" ∉ kvs.map Prod.fst := by
    intro hmem
    have h := hperm.mem_iff.mpr hmem
    simp only [List.mem_cons, List.not_mem_nil, or_false] at h
    rcases h with h | h | h | h | h | h <;> exact absurd h (by decide)
  rw [jLookup, List.find?_eq_none.mpr, Option.map_none']
  intro p hp hbeq
  exact hnotin (List.mem_map.mpr ⟨p, hp, by simpa using hbeq⟩)

/-- The fallback path of `parseResponse`, spelled out: when the strict
parse fails and the confidence token converts, the result is the dict of
leftmost-match extractions with the documented defaults and
`truncated = true`. -/
theorem parseResponse_fallback (raw : Str) (q : ℚ)
    (hfail : jsonLoads (fenceStage (pyStrip raw)) = none)
    (hconf : pyFloat (confToken raw) = some q) :
    parseResponse raw = some (Json.obj
      [(s2l "severity",
        Json.str ((reSearch matchSeverityAt raw).getD (s2l "MONITOR"))),
       (s2l "description",
        Json.str ((reSearch (matchStrFieldAt (s2l "\"description\"")) raw).getD
          (raw.take 200))),
       (s2l "hazards",
        Json.arr ((match reSearch matchHazardsAt raw with
          | some body => findallQuoted body
          | none => []).map Json.str)),
       (s2l "horse_state",
        Json.str ((reSearch (matchStrFieldAt (s2l "\"horse_state\"")) raw).getD
          (s2l "unknown"))),
       (s2l "confidence", Json.num q),
       (s2l "recommended_action",
        Json.str ((reSearch (matchStrFieldAt (s2l "\"recommended_action\"")) raw).getD
          (s2l "log"))),
       (s2l "truncated", Json.bool true)]) := by
  rw [parseResponse]
  simp only [hfail]
  rw [extract_from_truncated,
    show pyFloat ((reSearch matchConfidenceAt raw).getD (s2l "0.5")) = some q
      from hconf]

/-- The fallback raises exactly when `float()` rejects the confidence token. -/
theorem parseResponse_fallback_exn (raw : Str)
    (hfail : jsonLoads (fenceStage (pyStrip raw)) = none)
    (hconf : pyFloat (confToken raw) = none) :
    parseResponse raw = none := by
  rw [parseResponse]
  simp only [hfail]
  rw [extract_from_truncated,
    show pyFloat ((reSearch matchConfidenceAt raw).getD (s2l "0.5")) = none
      from hconf]

/-- Base64 of a nonempty byte list is nonempty (so the payload is truthy). -/
theorem b64encode_cons_ne (b : Nat) (bs : List Nat) :
    (b64encode (b :: bs)).isEmpty = false := by
  match bs with
  | [] => rfl
  | [x] => rfl
  | x :: y :: t => rfl

/-! ### Theorems for the claims -/

/-- C4: `sevLevel` maps SAFE to 0, MONITOR to 1, WARNING to 2, DANGER to 3
(monotonic in the declared order), maps every unknown label to 0, and
`shouldAlert level` holds iff `level ≥ 2`, i.e. exactly for the labels
WARNING and DANGER. -/
theorem c4_severity_policy :
    sevLevel (s2l "SAFE") = 0 ∧ sevLevel (s2l "MONITOR") = 1 ∧
    sevLevel (s2l "WARNING") = 2 ∧ sevLevel (s2l "DANGER") = 3 ∧
    (∀ s : Str, s ≠ s2l "SAFE" → s ≠ s2l "MONITOR" → s ≠ s2l "WARNING" →
      s ≠ s2l "DANGER" → sevLevel s = 0) ∧
    (∀ level : Nat, shouldAlert level = true ↔ 2 ≤ level) ∧
    (∀ s : Str, shouldAlert (sevLevel s) = true ↔
      (s = s2l "WARNING" ∨ s = s2l "DANGER")) := by
  refine ⟨by decide, by decide, by decide, by decide, ?_, ?_, ?_⟩
  · intro s h1 h2 h3 h4
    simp only [sevLevel, dictGet, SEVERITY_LEVELS, List.find?]
    rw [show ((s2l "SAFE" == s) = false) by simpa using fun h => h1 h.symm,
        show ((s2l "MONITOR" == s) = false) by simpa using fun h => h2 h.symm,
        show ((s2l "WARNING" == s) = false) by simpa using fun h => h3 h.symm,
        show ((s2l "DANGER" == s) = false) by simpa using fun h => h4 h.symm]
  · intro level
    simp [shouldAlert]
  · intro s
    by_cases h1 : s = s2l "SAFE"; · subst h1; simp [shouldAlert]; decide
    by_cases h2 : s = s2l "MONITOR"; · subst h2; simp [shouldAlert]; decide
    by_cases h3 : s = s2l "WARNING"; · subst h3; simp [shouldAlert]; decide
    by_cases h4 : s = s2l "DANGER"; · subst h4; simp [shouldAlert]; decide
    have h0 : sevLevel s = 0 := by
      simp only [sevLevel, dictGet, SEVERITY_LEVELS, List.find?]
      rw [show ((s2l "SAFE" == s) = false) by simpa using fun h => h1 h.symm,
          show ((s2l "MONITOR" == s) = false) by simpa using fun h => h2 h.symm,
          show ((s2l "WARNING" == s) = false) by simpa using fun h => h3 h.symm,
          show ((s2l "DANGER" == s) = false) by simpa using fun h => h4 h.symm]
    rw [h0]
    simp [shouldAlert, h3, h4]

/-- C4 witness: the theorem applied at the concrete unknown label "UNKNOWN". -/
theorem c4_severity_policy_witness :
    sevLevel (s2l "UNKNOWN") = 0 ∧ shouldAlert (sevLevel (s2l "DANGER")) = true := by
  refine ⟨c4_severity_policy.2.2.2.2.1 (s2l "UNKNOWN")
    (by decide) (by decide) (by decide) (by decide), ?_⟩
  exact (c4_severity_policy.2.2.2.2.2.2 (s2l "DANGER")).mpr (Or.inr rfl)

/-- C5: for every configured interval and observed latency, the live loop's
wait before the next capture is `max 0 (interval - latency)`, never negative;
with interval 5 and latency 7 the wait is 0. -/
theorem c5_pacing :
    (∀ interval latency : ℚ,
      monitorCameraWait interval latency = max 0 (interval - latency) ∧
      0 ≤ monitorCameraWait interval latency) ∧
    monitorCameraWait 5 7 = 0 := by
  refine ⟨fun interval latency => ⟨rfl, le_max_left _ _⟩, ?_⟩
  norm_num [monitorCameraWait]

/-- C9: stage 1 of parsing. If the fence regex matches, the cleaned text is
the matched group's inner content (stripped); otherwise, if the text starts
with three backticks, the result is exactly the original lines minus the
leading backtick line, all other lines joined back unchanged (a trailing
backtick line cannot exist in this branch, since a second delimiter would
have made the regex match). -/
theorem c9_fence_stage (s : Str) :
    (∀ g, fenceSearch s = some g → fenceStage s = pyStrip g) ∧
    (fenceSearch s = none → startsWith (s2l "```") s = true →
      fenceStage s = joinNl ((splitNl s).tail)) := by
  constructor
  · intro g hg
    rw [fenceStage, hg]
  · exact fenceStage_of_none s

/-- C9 witness: a fenced response and a truncated fence, both concrete. -/
theorem c9_fence_stage_witness :
    fenceStage (s2l "x ```json\nA``` y") = s2l "A" ∧
    fenceStage (s2l "```\nfoo\nbar") = s2l "foo\nbar" := by
  constructor
  · exact ((c9_fence_stage (s2l "x ```json\nA``` y")).1 (s2l "A")
      (by decide)).trans (by decide)
  · exact ((c9_fence_stage (s2l "```\nfoo\nbar")).2 (by decide)
      (by decide)).trans (by decide)

/-- C8: the finite-video loop visits exactly the positions `t0 + k·interval`
that are below the duration, the visited positions do not depend on
extraction/analysis outcomes (failures advance the position and are never
fatal), and with duration 22 and interval 5 it visits 0, 5, 10, 15, 20 and
stops. -/
theorem c8_video_loop :
    (∀ fuel (t duration interval : ℚ) (o₁ o₂ : ℚ → Option Bool),
      (monitorVideoVisits fuel t duration interval o₁).map Prod.fst =
      (monitorVideoVisits fuel t duration interval o₂).map Prod.fst) ∧
    (∀ fuel (t duration interval : ℚ) (o : ℚ → Option Bool) (p : ℚ),
      p ∈ (monitorVideoVisits fuel t duration interval o).map Prod.fst →
      ∃ k : Nat, p = t + k * interval ∧ p < duration) ∧
    (∀ fuel, 5 ≤ fuel → ∀ o : ℚ → Option Bool,
      (monitorVideoVisits fuel 0 22 5 o).map Prod.fst = [0, 5, 10, 15, 20]) := by
  refine ⟨?_, ?_, ?_⟩
  · intro fuel
    induction fuel with
    | zero => intro t d i o₁ o₂; simp [monitorVideoVisits]
    | succ n ih =>
      intro t d i o₁ o₂
      by_cases h : t < d
      · simp [monitorVideoVisits, h, ih (t + i) d i o₁ o₂]
      · simp [monitorVideoVisits, h]
  · intro fuel
    induction fuel with
    | zero => intro t d i o p hp; simp [monitorVideoVisits] at hp
    | succ n ih =>
      intro t d i o p hp
      by_cases h : t < d
      · simp only [monitorVideoVisits, if_pos h, List.map_cons, List.mem_cons] at hp
        rcases hp with hp | hp
        · exact ⟨0, by simpa using hp, by rwa [hp]⟩
        · obtain ⟨k, hk, hkd⟩ := ih (t + i) d i o p hp
          exact ⟨k + 1, by push_cast [hk]; ring, hkd⟩
      · rw [monitorVideoVisits_stop (n + 1) t d i o h] at hp; simp at hp
  · intro fuel hf o
    obtain ⟨m, rfl⟩ := Nat.exists_eq_add_of_le hf
    rw [Nat.add_comm 5 m]
    simp only [monitorVideoVisits]
    norm_num
    rw [monitorVideoVisits_stop m 25 22 5 o (by norm_num)]

/-- C8 witness: the concrete 22-second video with 5-second interval. -/
theorem c8_video_loop_witness :
    (monitorVideoVisits 5 0 22 5 (fun _ => none)).map Prod.fst =
      [0, 5, 10, 15, 20] :=
  c8_video_loop.2.2 5 (by norm_num) (fun _ => none)

/-- C10: with a positive sample count `s` over a nonempty frame list, the
frames analyzed by `analyze_directory` are the slice with step
`max 1 (n / s)` truncated to `s` elements: at most `s` frames, a sublist of
the original (selection preserves order, so sortedness is preserved), and
the first frame is always included. -/
theorem c10_sampling {α : Type} (frames : List α) (sample : Nat)
    (hs : 0 < sample) (hne : frames ≠ []) :
    sampleFrames frames sample =
      (everyNth frames (max 1 (frames.length / sample))).take sample ∧
    (sampleFrames frames sample).length ≤ sample ∧
    List.Sublist (sampleFrames frames sample) frames ∧
    (sampleFrames frames sample).head? = frames.head? ∧
    (∀ R : α → α → Prop, frames.Pairwise R →
      (sampleFrames frames sample).Pairwise R) := by
  have hdef : sampleFrames frames sample =
      (everyNth frames (max 1 (frames.length / sample))).take sample := by
    simp [sampleFrames, hs]
  have hsub : List.Sublist (sampleFrames frames sample) frames := by
    rw [hdef]
    exact (List.take_sublist _ _).trans (everyNth_sublist _ _)
  refine ⟨hdef, ?_, hsub, ?_, fun R h => h.sublist hsub⟩
  · rw [hdef]; exact List.length_take_le _ _
  · obtain ⟨x, xs, rfl⟩ := List.exists_cons_of_ne_nil hne
    obtain ⟨n, rfl⟩ := Nat.exists_eq_add_of_lt hs
    rw [hdef]
    simp [everyNth, everyNthAux, List.take_succ_cons]

/-- C1: when the cleaned text parses as JSON matching the output schema,
`parseResponse` returns exactly that JSON object — every field equals the
JSON's — and the verdict is not truncated (the strict path never writes a
`truncated` key, and the schema's six fields leave no room for one). -/
theorem c1_strict_parse (raw : Str) (j : Json)
    (hJ : jsonLoads (fenceStage (pyStrip raw)) = some j)
    (hS : matchesSchema j = true) :
    parseResponse raw = some j ∧ verdictTruncated j = false := by
  constructor
  · rw [parseResponse]
    simp only [hJ]
  · cases j with
    | obj kvs => rw [verdictTruncated, schema_no_truncated kvs hS]
    | null => simp [matchesSchema] at hS
    | bool b => simp [matchesSchema] at hS
    | num q => simp [matchesSchema] at hS
    | str s => simp [matchesSchema] at hS
    | arr xs => simp [matchesSchema] at hS

/-- C1 witness: the spec's fenced DANGER scenario, parsed strictly. -/
theorem c1_strict_parse_witness :
    parseResponse (s2l "```json\n\x7b\"severity\":\"DANGER\",\"description\":\"horse down\",\"hazards\":[\"CASTING\"],\"horse_state\":\"lying\",\"confidence\":0.9,\"recommended_action\":\"emergency\"\x7d\n```") =
      some (Json.obj
        [(s2l "severity", Json.str (s2l "DANGER")),
         (s2l "description", Json.str (s2l "horse down")),
         (s2l "hazards", Json.arr [Json.str (s2l "CASTING")]),
         (s2l "horse_state", Json.str (s2l "lying")),
         (s2l "confidence", Json.num (Rat.divInt 9 10)),
         (s2l "recommended_action", Json.str (s2l "emergency"))]) ∧
    verdictTruncated (Json.obj
        [(s2l "severity", Json.str (s2l "DANGER")),
         (s2l "description", Json.str (s2l "horse down")),
         (s2l "hazards", Json.arr [Json.str (s2l "CASTING")]),
         (s2l "horse_state", Json.str (s2l "lying")),
         (s2l "confidence", Json.num (Rat.divInt 9 10)),
         (s2l "recommended_action", Json.str (s2l "emergency"))]) = false :=
  c1_strict_parse _ _ rfl (by decide)

/-- C2 counterexample: a raw text that fails strict parse and contains the
well-formed substring `"severity": "WARNING"`, yet the fallback yields
severity SAFE — the leftmost severity match wins, not the WARNING one. -/
theorem c2_counterexample :
    s2l "\"severity\": \"SAFE\" \"severity\": \"WARNING\"" =
      s2l "\"severity\": \"SAFE\" " ++ (s2l "\"severity\": \"WARNING\"" ++ s2l "") ∧
    jsonLoads (fenceStage (pyStrip
      (s2l "\"severity\": \"SAFE\" \"severity\": \"WARNING\""))) = none ∧
    verdictField (parseResponse (s2l "\"severity\": \"SAFE\" \"severity\": \"WARNING\""))
      (s2l "severity") = some (Json.str (s2l "SAFE")) ∧
    verdictField (parseResponse (s2l "\"severity\": \"SAFE\" \"severity\": \"WARNING\""))
      (s2l "truncated") = some (Json.bool true) :=
  ⟨rfl, rfl, rfl, rfl⟩

/-- C2 (amended): when strict parse fails and `float()` accepts the
confidence token, the fallback yields the dict of leftmost-match
extractions with the documented defaults and `truncated = true`; in
particular a leftmost severity match of WARNING gives severity WARNING. -/
theorem c2_fallback_extraction (raw : Str) (q : ℚ)
    (hfail : jsonLoads (fenceStage (pyStrip raw)) = none)
    (hconf : pyFloat (confToken raw) = some q) :
    parseResponse raw = some (Json.obj
      [(s2l "severity",
        Json.str ((reSearch matchSeverityAt raw).getD (s2l "MONITOR"))),
       (s2l "description",
        Json.str ((reSearch (matchStrFieldAt (s2l "\"description\"")) raw).getD
          (raw.take 200))),
       (s2l "hazards",
        Json.arr ((match reSearch matchHazardsAt raw with
          | some body => findallQuoted body
          | none => []).map Json.str)),
       (s2l "horse_state",
        Json.str ((reSearch (matchStrFieldAt (s2l "\"horse_state\"")) raw).getD
          (s2l "unknown"))),
       (s2l "confidence", Json.num q),
       (s2l "recommended_action",
        Json.str ((reSearch (matchStrFieldAt (s2l "\"recommended_action\"")) raw).getD
          (s2l "log"))),
       (s2l "truncated", Json.bool true)]) ∧
    (reSearch matchSeverityAt raw = some (s2l "WARNING") →
      verdictField (parseResponse raw) (s2l "severity") =
        some (Json.str (s2l "WARNING")) ∧
      verdictField (parseResponse raw) (s2l "truncated") =
        some (Json.bool true)) := by
  have hmain := parseResponse_fallback raw q hfail hconf
  refine ⟨hmain, fun hw => ?_⟩
  rw [hmain, hw]
  exact ⟨rfl, rfl⟩

/-- C2 witness: a mid-object truncation carrying a WARNING severity. -/
theorem c2_fallback_extraction_witness :
    verdictField (parseResponse (s2l "\x7b\"severity\": \"WARNING\", \"hazar"))
      (s2l "severity") = some (Json.str (s2l "WARNING")) ∧
    verdictField (parseResponse (s2l "\x7b\"severity\": \"WARNING\", \"hazar"))
      (s2l "truncated") = some (Json.bool true) :=
  (c2_fallback_extraction (s2l "\x7b\"severity\": \"WARNING\", \"hazar")
    (Rat.divInt 1 2) rfl (by decide)).2 rfl

/-- C3 counterexample: `"{}"` is valid JSON, so the strict path returns an
empty dict — the resulting verdict has no severity field at all, refuting
"severity is always present". -/
theorem c3_counterexample :
    parseResponse (s2l "\x7b\x7d") = some (Json.obj []) ∧
    verdictField (parseResponse (s2l "\x7b\x7d")) (s2l "severity") = none :=
  ⟨rfl, rfl⟩

/-- C3 (amended): on the fallback path (strict parse failed, `float()`
accepted the confidence token) with no severity pattern match anywhere in
the raw text, the severity defaults to MONITOR (and the verdict is marked
truncated).  The strict path performs no such defaulting and no
validation. -/
theorem c3_monitor_default (raw : Str) (q : ℚ)
    (hfail : jsonLoads (fenceStage (pyStrip raw)) = none)
    (hnosev : reSearch matchSeverityAt raw = none)
    (hconf : pyFloat (confToken raw) = some q) :
    verdictField (parseResponse raw) (s2l "severity") =
      some (Json.str (s2l "MONITOR")) ∧
    verdictField (parseResponse raw) (s2l "truncated") =
      some (Json.bool true) := by
  rw [parseResponse_fallback raw q hfail hconf, hnosev]
  exact ⟨rfl, rfl⟩

/-- C3 witness: prose with no severity field defaults to MONITOR. -/
theorem c3_monitor_default_witness :
    verdictField (parseResponse (s2l "The horse looks fine to me."))
      (s2l "severity") = some (Json.str (s2l "MONITOR")) :=
  (c3_monitor_default (s2l "The horse looks fine to me.") (Rat.divInt 1 2)
    rfl rfl (by decide)).1

/-- C7 counterexample: strict parse fails and the confidence pattern
matches the token `".."`, which `float()` rejects — the fallback raises a
`ValueError` instead of returning a truncated Verdict, so the fallback is
not total. -/
theorem c7_counterexample :
    jsonLoads (fenceStage (pyStrip (s2l "\x7b\"confidence\": .."))) = none ∧
    reSearch matchConfidenceAt (s2l "\x7b\"confidence\": ..") = some (s2l "..") ∧
    parseResponse (s2l "\x7b\"confidence\": ..") = none :=
  ⟨rfl, rfl, rfl⟩

/-- C7 (amended): on strict-parse failure the fallback returns a
`truncated = true` Verdict whenever `float()` accepts the confidence token
(in particular whenever the pattern does not match and the default `"0.5"`
is used); when `float()` rejects the token, the `ValueError` escapes the
fallback and parsing produces no Verdict. -/
theorem c7_fallback_totality (raw : Str)
    (hfail : jsonLoads (fenceStage (pyStrip raw)) = none) :
    (∀ q, pyFloat (confToken raw) = some q →
      verdictField (parseResponse raw) (s2l "truncated") =
        some (Json.bool true)) ∧
    (pyFloat (confToken raw) = none → parseResponse raw = none) := by
  constructor
  · intro q hq
    rw [parseResponse_fallback raw q hfail hq]
    rfl
  · intro hq
    exact parseResponse_fallback_exn raw hfail hq

/-- C7 witness: a truncated reply degrades to a truncated Verdict. -/
theorem c7_fallback_totality_witness :
    verdictField (parseResponse (s2l "\x7b\"severity\": \"DANGER\""))
      (s2l "truncated") = some (Json.bool true) :=
  (c7_fallback_totality (s2l "\x7b\"severity\": \"DANGER\"") rfl).1
    (Rat.divInt 1 2) (by decide)

/-- C6 counterexample: on an unreadable input (`Image.open`/`open`
raises), `analyze_frame` does not return an AnalysisError dict — the
exception propagates uncaught, because `encode_image` is called before the
`try` block. -/
theorem c6_counterexample :
    analyze_frame none (Except.ok (s2l "x")) 0 (s2l "frames/f.jpg") (s2l "t") =
      Except.error (s2l "FileNotFoundError") :=
  rfl

/-- C6 (amended): a failed inference call becomes an AnalysisError dict
carrying the cause and provenance, and an empty encoded payload becomes
the early encode-failure dict; but an unreadable input makes
`encode_image` raise, and the exception escapes `analyze_frame` uncaught
rather than being surfaced as an encode-failure AnalysisError. -/
theorem c6_error_handling (b : Nat) (bs : List Nat) (infer : Except Str Str)
    (e : Str) (latency : ℚ) (image_path now : Str) :
    analyze_frame none infer latency image_path now =
      Except.error (s2l "FileNotFoundError") ∧
    analyze_frame (some (b :: bs)) (Except.error e) latency image_path now =
      Except.ok (errDict e image_path now) ∧
    analyze_frame (some []) infer latency image_path now =
      Except.ok (Json.obj [(s2l "error",
        Json.str (s2l "Failed to encode image: " ++ image_path))]) := by
  refine ⟨rfl, ?_, rfl⟩
  rw [analyze_frame, encode_image]
  simp [b64encode_cons_ne]

/-- C10 witness: seven frames sampled down to three picks indices 0, 2, 4. -/
theorem c10_sampling_witness :
    sampleFrames [0, 1, 2, 3, 4, 5, 6] 3 = [0, 2, 4] ∧
    (sampleFrames [0, 1, 2, 3, 4, 5, 6] 3).length ≤ 3 ∧
    (sampleFrames [0, 1, 2, 3, 4, 5, 6] 3).head? =
      ([0, 1, 2, 3, 4, 5, 6] : List Nat).head? := by
  have h := c10_sampling ([0, 1, 2, 3, 4, 5, 6] : List Nat) 3
    (by norm_num) (by simp)
  exact ⟨by decide, h.2.1, h.2.2.2.1⟩

end Stablewatch
